import Mathlib

/-!
Shallow embedding of the gmaps-scraper frontend (`src/frontend/src/App.jsx`)
and proofs about its session/resume logic, ingestion buffers, and export
serializer.  State updates of the React component are modelled as pure
functions on an explicit state record; the outbound WebSocket traffic of one
user action is returned as a list of messages.
-/

namespace GMaps

/-- JavaScript primitive runtime values, as they appear in scraped record
fields (a field may be a string, a number, a boolean, `null`, or absent). -/
inductive JSVal where
  | undef
  | null
  | str (s : String)
  | num (n : Int)
  | bool (b : Bool)
deriving DecidableEq, Repr

/-- JavaScript truthiness of a primitive value: `undefined`, `null`, the
empty string, the number `0` and `false` are falsy, everything else truthy. -/
def JSVal.truthy : JSVal → Bool
  | .undef => false
  | .null => false
  | .str s => !(s == "")
  | .num n => !(n == 0)
  | .bool b => b

/-- JavaScript `toString` on a primitive value. -/
def JSVal.jsToString : JSVal → String
  | .undef => "undefined"
  | .null => "null"
  | .str s => s
  | .num n => toString n
  | .bool b => if b then "true" else "false"

/-- JavaScript `a || b`: the first operand if truthy, otherwise the second. -/
def JSVal.jsOr (a b : JSVal) : JSVal := if a.truthy then a else b

/-- The six record fields, in the insertion order of the `columns` state
object of `App.jsx` (`{name, address, phone, website, rating, link}`), which
is the order `Object.keys` enumerates them in. -/
inductive Column where
  | name
  | address
  | phone
  | website
  | rating
  | link
deriving DecidableEq, Repr

/-- The JavaScript property name of a column. -/
def Column.colName : Column → String
  | .name => "name"
  | .address => "address"
  | .phone => "phone"
  | .website => "website"
  | .rating => "rating"
  | .link => "link"

/-- JavaScript `String.prototype.toUpperCase()` (character-wise upper
casing, which agrees with it on the ASCII column names used here). -/
def jsToUpper (s : String) : String := String.mk (s.data.map Char.toUpper)

/-- `Object.keys(columns)` in its insertion order. -/
def canonicalCols : List Column :=
  [.name, .address, .phone, .website, .rating, .link]

/-- One collected listing, as delivered by the worker in a `row` event.
Every field is a raw JavaScript value (possibly absent). -/
structure Record where
  name : JSVal := .undef
  address : JSVal := .undef
  phone : JSVal := .undef
  website : JSVal := .undef
  rating : JSVal := .undef
  link : JSVal := .undef
deriving DecidableEq, Repr

/-- Property lookup `row[col]` on a record. -/
def Record.get (r : Record) : Column → JSVal
  | .name => r.name
  | .address => r.address
  | .phone => r.phone
  | .website => r.website
  | .rating => r.rating
  | .link => r.link

/-- JavaScript `String.prototype.trim()`: strip leading and trailing
whitespace. -/
def jsTrim (s : String) : String :=
  String.mk
    (((s.data.dropWhile Char.isWhitespace).reverse.dropWhile
      Char.isWhitespace).reverse)

/-- JavaScript `Array.prototype.slice(-k)`: the last `k` elements (the whole
list when it is shorter than `k`). -/
def jsSliceLast (k : Nat) (l : List String) : List String :=
  l.drop (l.length - k)

/-- `addLog` of `App.jsx`: `setLogs(prev => [...prev.slice(-99), msg])`. -/
def addLog (logs : List String) (msg : String) : List String :=
  jsSliceLast 99 logs ++ [msg]

/-- `addRow` of `App.jsx`: `setRows(prev => [...prev, row])`. -/
def addRow (rows : List Record) (row : Record) : List Record :=
  rows ++ [row]

/-- The component state of `App.jsx` that the session logic touches. -/
structure AppState where
  status : String := "IDLE"
  logs : List String := []
  rows : List Record := []
  keyword : String := ""
  lastKeyword : String := ""
  liveImage : Option String := none
  headless : Bool := true
  hasSocket : Bool := true
deriving DecidableEq, Repr

/-- An outbound control message sent over the WebSocket by `toggleScrape`. -/
inductive OutMsg where
  | start (keyword : String) (headless : Bool) (ignoreUrls : List JSVal)
  | stop
deriving DecidableEq, Repr

/-- `toggleScrape` of `App.jsx`: the handler of the START/STOP button,
returning the updated component state together with the list of messages
sent over the socket during the call. -/
def toggleScrape (s : AppState) : AppState × List OutMsg :=
  if !s.hasSocket then (s, [])
  else if s.status == "IDLE" || s.status == "STOPPED" then
    if jsTrim s.keyword == "" then
      ({ s with logs := addLog s.logs "> Error: Keyword required." }, [])
    else
      let currentKey := jsTrim s.keyword
      if currentKey != s.lastKeyword then
        let newMsg := "> Starting NEW session for: \"" ++ currentKey ++ "\""
        let s1 : AppState :=
          { s with rows := [], logs := [], liveImage := none,
                   lastKeyword := currentKey }
        let s2 : AppState := { s1 with logs := addLog s1.logs newMsg }
        (s2, [.start currentKey s.headless []])
      else
        let ignoreUrls :=
          (s.rows.map Record.link).filter
            (fun l => l.truthy && !(l == JSVal.str "N/A"))
        let resumeMsg := "> RESUMING session for: \"" ++ currentKey ++ "\""
        let countMsg :=
          "> Sending " ++ toString ignoreUrls.length ++ " existing links to skip."
        let s1 : AppState := { s with logs := addLog s.logs resumeMsg }
        let s2 : AppState := { s1 with logs := addLog s1.logs countMsg }
        (s2, [.start currentKey s.headless ignoreUrls])
  else
    (s, [.stop])

/-- The active columns of `exportData`:
`Object.keys(columns).filter(k => columns[k])`. -/
def activeCols (mask : Column → Bool) : List Column :=
  canonicalCols.filter mask

/-- The exported header labels: `activeCols.map(k => k.toUpperCase())`. -/
def headers (mask : Column → Bool) : List String :=
  (activeCols mask).map (fun c => jsToUpper c.colName)

/-- Character-level model of the JavaScript `replace(/"/g, '""')` call:
every double-quote character is doubled, all other characters are kept. -/
def escList : List Char → List Char
  | [] => []
  | c :: cs => if c = '\"' then '\"' :: '\"' :: escList cs else c :: escList cs

/-- The standard inverse of quote doubling: each doubled quote collapses back
to a single quote. -/
def unescList : List Char → List Char
  | [] => []
  | c :: cs =>
    if c = '\"' then
      match cs with
      | c2 :: cs2 =>
        if c2 = '\"' then '\"' :: unescList cs2
        else c :: unescList (c2 :: cs2)
      | [] => [c]
    else c :: unescList cs

/-- `val.replace(/"/g, '""')` on a string. -/
def escapeQuotes (s : String) : String := String.mk (escList s.data)

/-- The string actually serialized for a field: `(row[col] || "").toString()`. -/
def displayVal (v : JSVal) : String := (v.jsOr (.str "")).jsToString

/-- One serialized CSV field of `exportData`:
`` `"${(row[col] || "").toString().replace(/"/g, '""')}"` ``. -/
def csvField (v : JSVal) : String :=
  "\"" ++ escapeQuotes (displayVal v) ++ "\""

/-- JavaScript `Array.prototype.join(sep)`. -/
def joinWith (sep : String) : List String → String
  | [] => ""
  | [x] => x
  | x :: xs => x ++ sep ++ joinWith sep xs

/-- One CSV data line of `exportData`:
`activeCols.map(col => ...).join(",")`. -/
def csvRowLine (mask : Column → Bool) (r : Record) : String :=
  joinWith "," ((activeCols mask).map (fun c => csvField (r.get c)))

/-- The full CSV byte stream of `exportData`:
`[headers.join(","), ...csvRows].join("\n")`. -/
def csvContent (mask : Column → Bool) (rows : List Record) : String :=
  joinWith "\n" (joinWith "," (headers mask) :: rows.map (csvRowLine mask))

/-- The spreadsheet projection of `exportData`: each record becomes an object
whose keys are the upper-cased active column names, in `activeCols` order
(modelled as an association list), fed to `XLSX.utils.json_to_sheet`. -/
def xlsxRows (mask : Column → Bool) (rows : List Record) :
    List (List (String × JSVal)) :=
  rows.map (fun r => (activeCols mask).map
    (fun c => (jsToUpper c.colName, r.get c)))

/-- The observable outcome of one `exportData` call. -/
inductive ExportResult where
  | alert (msg : String)
  | csvFile (fileName : String) (content : String)
  | xlsxFile (fileName : String) (sheetName : String)
      (sheet : List (List (String × JSVal))) (colWidths : List Nat)
deriving DecidableEq, Repr

/-- `exportData` of `App.jsx`.  `xlsxLoaded` models whether the dynamically
loaded SheetJS script has attached `window.XLSX`; `timestamp` models the
sanitized ISO timestamp embedded in the file name. -/
def exportData (rows : List Record) (mask : Column → Bool)
    (exportFormat : String) (xlsxLoaded : Bool) (timestamp : String) :
    ExportResult :=
  if rows.length == 0 then .alert "No data to export!"
  else if exportFormat == "xlsx" then
    if !xlsxLoaded then .alert "Export library loading... Try again in 2s."
    else
      .xlsxFile ("gmaps_export_" ++ timestamp ++ ".xlsx") "Data"
        (xlsxRows mask rows) ((activeCols mask).map (fun _ => 20))
  else
    .csvFile ("gmaps_export_" ++ timestamp ++ ".csv") (csvContent mask rows)

/-- Whether an `exportData` outcome wrote a file (`true`) or only raised a
user-visible alert (`false`). -/
def ExportResult.producesFile : ExportResult → Bool
  | .alert _ => false
  | .csvFile _ _ => true
  | .xlsxFile _ _ _ _ => true

/-- Modelled from the spec: the quoted-field rule of a standard (RFC 4180)
CSV parser.  Reads the body of a quoted field after its opening quote,
collapsing each doubled quote to a literal quote, and returns the field
characters together with the input remaining after the closing quote. -/
def parseQuotedAux (acc : List Char) : List Char → Option (List Char × List Char)
  | [] => none
  | c :: rest =>
    if c = '\"' then
      match rest with
      | c2 :: rest2 =>
        if c2 = '\"' then parseQuotedAux (acc ++ ['\"']) rest2
        else some (acc, rest)
      | [] => some (acc, [])
    else parseQuotedAux (acc ++ [c]) rest

/-- Modelled from the spec: one record of a standard CSV parser — fields
separated by commas, each field either quoted (with doubled-quote escaping)
or a bare run of characters up to the next comma or newline.  Returns the
parsed fields and the input remaining after the record's terminating
newline (or end of input).  `fuel` bounds the number of fields. -/
def parseRecordAux : Nat → List Char → Option (List String × List Char)
  | 0, _ => none
  | fuel + 1, cs =>
    let step (fld : List Char) (rest : List Char) :
        Option (List String × List Char) :=
      match rest with
      | ',' :: rest2 =>
        match parseRecordAux fuel rest2 with
        | some (flds, rem) => some (String.mk fld :: flds, rem)
        | none => none
      | '\n' :: rest2 => some ([String.mk fld], rest2)
      | [] => some ([String.mk fld], [])
      | _ => none
    match cs with
    | [] => step [] []
    | c :: rest =>
      if c = '\"' then
        match parseQuotedAux [] rest with
        | some (fld, rest2) => step fld rest2
        | none => none
      else
        step ((c :: rest).takeWhile (fun ch => !(ch == ',') && !(ch == '\n')))
          ((c :: rest).dropWhile (fun ch => !(ch == ',') && !(ch == '\n')))

/-- Modelled from the spec: a standard CSV parser's document rule — a
newline-separated sequence of records.  `fuel` bounds the number of
records. -/
def parseDocAux : Nat → List Char → Option (List (List String))
  | 0, _ => none
  | fuel + 1, cs =>
    match cs with
    | [] => some []
    | _ =>
      match parseRecordAux (cs.length + 1) cs with
      | some (fields, rest) =>
        match parseDocAux fuel rest with
        | some recs => some (fields :: recs)
        | none => none
      | none => none

/-- Modelled from the spec: a standard CSV parser, used to state the
export/parse round-trip property. -/
def parseCSV (s : String) : Option (List (List String)) :=
  parseDocAux (s.data.length + 1) s.data

/-- Character-level join with a single separator character (proof-side view
of `joinWith`). -/
def encJoin (sep : Char) : List (List Char) → List Char
  | [] => []
  | [x] => x
  | x :: xs => x ++ sep :: encJoin sep xs

/-- Character-level view of one quoted, escaped CSV field with raw content
`raw`. -/
def encField (raw : String) : List Char :=
  '\"' :: (escList raw.data ++ ['\"'])

/-- Character-level view of one CSV data line: quoted fields joined by
commas. -/
def encQRecord (raws : List String) : List Char :=
  encJoin ',' (raws.map encField)

/-- Character-level view of the unquoted header line: bare fields joined by
commas. -/
def encPRecord (raws : List String) : List Char :=
  encJoin ',' (raws.map String.data)

/-- Character-level view of the quoted data lines joined by newlines. -/
def encQDoc (lines : List (List String)) : List Char :=
  encJoin '\n' (lines.map encQRecord)

/-- A sample collected record with a usable link. -/
def sampleRec1 : Record :=
  { name := .str "Cafe \"A\"", address := .str "1 Main St, Hanoi",
    phone := .str "012345", website := .str "a.com",
    rating := .num 4, link := .str "http://maps/a" }

/-- A sample record whose link is the sentinel. -/
def sampleRec2 : Record :=
  { name := .str "Cafe B", link := .str "N/A" }

/-- A sample record with a missing link and a zero rating. -/
def sampleRec3 : Record :=
  { name := .str "Cafe C", rating := .num 0 }

/-- A stopped session holding three records, about to resume the same
keyword. -/
def resumeState : AppState :=
  { status := "STOPPED", keyword := " cafe ", lastKeyword := "cafe",
    rows := [sampleRec1, sampleRec2, sampleRec3], logs := ["l1", "l2"],
    liveImage := some "img" }

/-- A stopped session about to start a different keyword. -/
def newKeywordState : AppState :=
  { status := "STOPPED", keyword := "gyms", lastKeyword := "cafe",
    rows := [sampleRec1], logs := ["l1"], liveImage := some "img" }

/-- A state whose connection already went offline. -/
def offlineState : AppState :=
  { status := "OFFLINE", keyword := "cafe", lastKeyword := "cafe",
    rows := [sampleRec1], logs := ["l1"] }

/-- A running session. -/
def runningState : AppState :=
  { status := "RUNNING", keyword := "cafe", lastKeyword := "cafe" }

/-- An idle state whose keyword input is blank. -/
def blankKeywordState : AppState :=
  { status := "IDLE", keyword := "   ", lastKeyword := "cafe",
    rows := [sampleRec1], logs := ["l1"], liveImage := some "img" }

/-- The column mask with all columns enabled (the initial `columns` state). -/
def allCols : Column → Bool := fun _ => true

/-- A column mask with the phone and website columns disabled. -/
def sampleMask : Column → Bool := fun c =>
  !(c == Column.phone) && !(c == Column.website)

/-! ## Helper lemmas -/

theorem status_cond_true {s : AppState}
    (h : s.status = "IDLE" ∨ s.status = "STOPPED") :
    (s.status == "IDLE" || s.status == "STOPPED") = true := by
  rcases h with h | h <;> simp [h]

/-- **C1.** A start request whose trimmed keyword equals the keyword of the
previous start resumes the session: the row buffer is returned unchanged
(no row removed or reordered), and the single outbound start message
carries an `ignore_urls` list whose members are exactly the link values of
the buffered records that are neither missing (falsy) nor the sentinel
`"N/A"`. -/
theorem resume_preserves_rows_and_sends_buffered_links (s : AppState)
    (hsock : s.hasSocket = true)
    (hstat : s.status = "IDLE" ∨ s.status = "STOPPED")
    (hkw : jsTrim s.keyword ≠ "")
    (hsame : jsTrim s.keyword = s.lastKeyword) :
    (toggleScrape s).1.rows = s.rows ∧
    ∃ us, (toggleScrape s).2 = [OutMsg.start (jsTrim s.keyword) s.headless us] ∧
      ∀ l, l ∈ us ↔
        ((∃ r ∈ s.rows, r.link = l) ∧ l.truthy = true ∧ l ≠ JSVal.str "N/A") := by
  have hc := status_cond_true hstat
  have h2 : (jsTrim s.keyword == "") = false := by simp [hkw]
  have h3 : (jsTrim s.keyword != s.lastKeyword) = false := by simp [hsame]
  simp only [toggleScrape, hsock, Bool.not_true, Bool.false_eq_true, if_false,
    hc, if_true, h2, h3]
  refine ⟨trivial, ?_⟩
  refine ⟨_, rfl, fun l => ?_⟩
  simp only [List.mem_filter, List.mem_map, Bool.and_eq_true, Bool.not_eq_true',
    beq_eq_false_iff_ne, ne_eq]

/-- Concrete instantiation of the resume theorem at `resumeState`. -/
theorem resume_preserves_rows_and_sends_buffered_links_witness :
    (resumeState.hasSocket = true ∧
      (resumeState.status = "IDLE" ∨ resumeState.status = "STOPPED") ∧
      jsTrim resumeState.keyword ≠ "" ∧
      jsTrim resumeState.keyword = resumeState.lastKeyword) ∧
    ((toggleScrape resumeState).1.rows = resumeState.rows ∧
      ∃ us, (toggleScrape resumeState).2 =
          [OutMsg.start (jsTrim resumeState.keyword) resumeState.headless us] ∧
        ∀ l, l ∈ us ↔
          ((∃ r ∈ resumeState.rows, r.link = l) ∧ l.truthy = true ∧
            l ≠ JSVal.str "N/A")) :=
  ⟨⟨rfl, Or.inr rfl, by decide, by decide⟩,
    resume_preserves_rows_and_sends_buffered_links resumeState rfl (Or.inr rfl)
      (by decide) (by decide)⟩

/-- **C2.** A start request whose trimmed keyword differs from the previous
start's keyword (including when no previous start exists) begins a new
session: the row buffer, log buffer and live preview frame are cleared (the
log buffer afterwards holds only the new-session diagnostic line), the new
trimmed keyword is recorded, and the single outbound start message carries
an empty `ignore_urls` list. -/
theorem new_keyword_clears_buffers_and_sends_empty_skiplist (s : AppState)
    (hsock : s.hasSocket = true)
    (hstat : s.status = "IDLE" ∨ s.status = "STOPPED")
    (hkw : jsTrim s.keyword ≠ "")
    (hdiff : jsTrim s.keyword ≠ s.lastKeyword) :
    (toggleScrape s).1.rows = [] ∧
    (toggleScrape s).1.liveImage = none ∧
    (toggleScrape s).1.logs =
      ["> Starting NEW session for: \"" ++ jsTrim s.keyword ++ "\""] ∧
    (toggleScrape s).1.lastKeyword = jsTrim s.keyword ∧
    (toggleScrape s).2 = [OutMsg.start (jsTrim s.keyword) s.headless []] := by
  have hc := status_cond_true hstat
  have h2 : (jsTrim s.keyword == "") = false := by simp [hkw]
  have h3 : (jsTrim s.keyword != s.lastKeyword) = true := by simp [hdiff]
  simp only [toggleScrape, hsock, Bool.not_true, Bool.false_eq_true, if_false,
    hc, if_true, h2, h3]
  refine ⟨?_, ?_, ?_, ?_, ?_⟩ <;> trivial

/-- Concrete instantiation of the new-session theorem at `newKeywordState`. -/
theorem new_keyword_clears_buffers_and_sends_empty_skiplist_witness :
    (newKeywordState.hasSocket = true ∧
      (newKeywordState.status = "IDLE" ∨ newKeywordState.status = "STOPPED") ∧
      jsTrim newKeywordState.keyword ≠ "" ∧
      jsTrim newKeywordState.keyword ≠ newKeywordState.lastKeyword) ∧
    ((toggleScrape newKeywordState).1.rows = [] ∧
      (toggleScrape newKeywordState).1.liveImage = none ∧
      (toggleScrape newKeywordState).1.logs =
        ["> Starting NEW session for: \"" ++ jsTrim newKeywordState.keyword ++
          "\""] ∧
      (toggleScrape newKeywordState).1.lastKeyword =
        jsTrim newKeywordState.keyword ∧
      (toggleScrape newKeywordState).2 =
        [OutMsg.start (jsTrim newKeywordState.keyword)
          newKeywordState.headless []]) :=
  ⟨⟨rfl, Or.inr rfl, by decide, by decide⟩,
    new_keyword_clears_buffers_and_sends_empty_skiplist newKeywordState rfl
      (Or.inr rfl) (by decide) (by decide)⟩

/-- Counterexample to **C3** as stated: at the non-running status
`"OFFLINE"`, invoking the handler is not a no-op — a stop message is sent
over the transport. -/
theorem stop_outside_running_sends_message :
    offlineState.status ≠ "RUNNING" ∧
    (toggleScrape offlineState).2 = [OutMsg.stop] := by decide

/-- **C3 (amended).** Invoking the handler when the status is neither
`"IDLE"` nor `"STOPPED"` — that is, when it is `"RUNNING"` or `"OFFLINE"` —
sends exactly one stop message and leaves the whole state unchanged; the
stop path is never message-free. -/
theorem stop_branch_sends_stop_and_preserves_state (s : AppState)
    (hsock : s.hasSocket = true)
    (h1 : s.status ≠ "IDLE") (h2 : s.status ≠ "STOPPED") :
    toggleScrape s = (s, [OutMsg.stop]) := by
  have hc : (s.status == "IDLE" || s.status == "STOPPED") = false := by
    simp [h1, h2]
  simp [toggleScrape, hsock, hc]

/-- Concrete instantiation of the stop-branch theorem at `runningState`. -/
theorem stop_branch_sends_stop_and_preserves_state_witness :
    (runningState.hasSocket = true ∧ runningState.status ≠ "IDLE" ∧
      runningState.status ≠ "STOPPED") ∧
    toggleScrape runningState = (runningState, [OutMsg.stop]) :=
  ⟨⟨rfl, by decide, by decide⟩,
    stop_branch_sends_stop_and_preserves_state runningState rfl (by decide)
      (by decide)⟩

/-- **C4.** A start request whose keyword trims to the empty string is
rejected: no message is sent, the diagnostic line
`"> Error: Keyword required."` is appended to the log buffer, and no other
state field changes. -/
theorem blank_keyword_rejected (s : AppState)
    (hsock : s.hasSocket = true)
    (hstat : s.status = "IDLE" ∨ s.status = "STOPPED")
    (hkw : jsTrim s.keyword = "") :
    toggleScrape s =
      ({ s with logs := addLog s.logs "> Error: Keyword required." }, []) ∧
    (toggleScrape s).1.rows = s.rows ∧
    (toggleScrape s).1.status = s.status ∧
    (toggleScrape s).1.lastKeyword = s.lastKeyword ∧
    (toggleScrape s).1.liveImage = s.liveImage ∧
    (toggleScrape s).1.keyword = s.keyword := by
  have hc := status_cond_true hstat
  have h2 : (jsTrim s.keyword == "") = true := by simp [hkw]
  simp only [toggleScrape, hsock, Bool.not_true, Bool.false_eq_true, if_false,
    hc, if_true, h2]
  refine ⟨?_, ?_, ?_, ?_, ?_, ?_⟩ <;> trivial

/-- Concrete instantiation of the blank-keyword theorem at
`blankKeywordState`. -/
theorem blank_keyword_rejected_witness :
    (blankKeywordState.hasSocket = true ∧
      (blankKeywordState.status = "IDLE" ∨
        blankKeywordState.status = "STOPPED") ∧
      jsTrim blankKeywordState.keyword = "") ∧
    (toggleScrape blankKeywordState =
      ({ blankKeywordState with
          logs := addLog blankKeywordState.logs
            "> Error: Keyword required." }, []) ∧
      (toggleScrape blankKeywordState).1.rows = blankKeywordState.rows ∧
      (toggleScrape blankKeywordState).1.status = blankKeywordState.status ∧
      (toggleScrape blankKeywordState).1.lastKeyword =
        blankKeywordState.lastKeyword ∧
      (toggleScrape blankKeywordState).1.liveImage =
        blankKeywordState.liveImage ∧
      (toggleScrape blankKeywordState).1.keyword =
        blankKeywordState.keyword) :=
  ⟨⟨rfl, Or.inl rfl, by decide⟩,
    blank_keyword_rejected blankKeywordState rfl (Or.inl rfl) (by decide)⟩

/-- One append never leaves more than 100 entries in the log buffer. -/
theorem addLog_length_le (logs : List String) (msg : String) :
    (addLog logs msg).length ≤ 100 := by
  simp only [addLog, jsSliceLast, List.length_append, List.length_drop,
    List.length_cons, List.length_nil]
  omega

/-- Starting from an empty buffer, a sequence of appends leaves exactly the
most recent 100 entries, in arrival order. -/
theorem foldl_addLog_eq (msgs : List String) :
    msgs.foldl addLog [] = msgs.drop (msgs.length - 100) := by
  induction msgs using List.reverseRecOn with
  | nil => rfl
  | append_singleton ms m ih =>
    rw [List.foldl_append, List.foldl_cons, List.foldl_nil, ih]
    simp only [addLog, jsSliceLast, List.drop_drop, List.length_drop,
      List.length_append, List.length_cons, List.length_nil]
    rw [List.drop_append_of_le_length (by omega)]
    have h : ms.length - 100 + (ms.length - (ms.length - 100) - 99) =
        ms.length + (0 + 1) - 100 := by omega
    rw [h]

/-- **C5.** The log buffer never holds more than 100 entries, and after any
sequence of appends (each prefix of `msgs` being such a sequence) it holds
exactly the most recent `min n 100` entries in arrival order, oldest
evicted first. -/
theorem log_buffer_bounded_and_most_recent :
    (∀ logs msg, (addLog logs msg).length ≤ 100) ∧
    (∀ msgs : List String,
        msgs.foldl addLog [] = msgs.drop (msgs.length - 100)) :=
  ⟨addLog_length_le, foldl_addLog_eq⟩

/-- **C9.** Exporting an empty record buffer produces no file in either
format and only raises the user-visible "No data to export!" alert; the
call reads no other state and mutates nothing. -/
theorem export_empty_dataset_no_file :
    ∀ (mask : Column → Bool) (format : String) (loaded : Bool) (ts : String),
      exportData [] mask format loaded ts = .alert "No data to export!" ∧
      (exportData [] mask format loaded ts).producesFile = false :=
  fun _ _ _ _ => ⟨rfl, rfl⟩

/-- **C10 (implicit).** A falsy field value — `undefined`, `null`, the
empty string, the number `0`, or `false` — is serialized in CSV as the
empty quoted field `""`; in particular a rating of `0` is indistinguishable
in the CSV output from an absent rating. -/
theorem csvField_falsy_empty (v : JSVal) (h : v.truthy = false) :
    csvField v = "\"\"" ∧
    csvField (JSVal.num 0) = csvField JSVal.undef := by
  have hv : v.jsOr (.str "") = .str "" := by simp [JSVal.jsOr, h]
  refine ⟨?_, rfl⟩
  simp only [csvField, displayVal, hv, JSVal.jsToString, escapeQuotes]
  rfl

/-- Concrete instantiation of the falsy-field theorem at the rating `0`. -/
theorem csvField_falsy_empty_witness :
    (JSVal.num 0).truthy = false ∧
    (csvField (JSVal.num 0) = "\"\"" ∧
      csvField (JSVal.num 0) = csvField JSVal.undef) :=
  ⟨by decide, csvField_falsy_empty (JSVal.num 0) (by decide)⟩

theorem mem_canonicalCols (c : Column) : c ∈ canonicalCols := by
  cases c <;> simp [canonicalCols]

theorem mem_activeCols (mask : Column → Bool) (c : Column) :
    c ∈ activeCols mask ↔ mask c = true := by
  simp [activeCols, List.mem_filter, mem_canonicalCols c]

/-- Distinct columns have distinct upper-cased header labels. -/
theorem colName_upper_injective (c c' : Column)
    (h : jsToUpper c.colName = jsToUpper c'.colName) : c = c' := by
  cases c <;> cases c' <;> first | rfl | exact absurd h (by decide)

/-- A column's upper-cased label occurs among the exported headers exactly
when the column is enabled in the mask. -/
theorem mem_headers (mask : Column → Bool) (c : Column) :
    jsToUpper c.colName ∈ headers mask ↔ mask c = true := by
  rw [headers]
  constructor
  · intro h
    rcases List.mem_map.1 h with ⟨c', hc', he⟩
    have h2 := (mem_activeCols mask c').1 hc'
    rw [colName_upper_injective c' c he] at h2
    exact h2
  · intro h
    exact List.mem_map.2 ⟨c, (mem_activeCols mask c).2 h, rfl⟩

/-- **C6.** On a non-empty record set, export emits exactly the columns
enabled in the mask, in the canonical order (name, address, phone, website,
rating, link), with upper-cased header labels; a disabled column's label
appears in neither the CSV header nor any spreadsheet row. -/
theorem export_projects_masked_columns (rows : List Record)
    (mask : Column → Bool) (loaded : Bool) (ts : String) (hne : rows ≠ []) :
    (exportData rows mask "csv" loaded ts =
      .csvFile ("gmaps_export_" ++ ts ++ ".csv") (csvContent mask rows)) ∧
    (exportData rows mask "xlsx" true ts =
      .xlsxFile ("gmaps_export_" ++ ts ++ ".xlsx") "Data" (xlsxRows mask rows)
        ((activeCols mask).map (fun _ => 20))) ∧
    (activeCols mask).Sublist canonicalCols ∧
    (∀ c, c ∈ activeCols mask ↔ mask c = true) ∧
    (∀ c, jsToUpper c.colName ∈ headers mask ↔ mask c = true) ∧
    (∀ row ∈ xlsxRows mask rows, row.map Prod.fst = headers mask) ∧
    (∀ c, mask c = false → ∀ row ∈ xlsxRows mask rows, ∀ kv ∈ row,
      kv.1 ≠ jsToUpper c.colName) ∧
    csvContent mask rows =
      joinWith "\n"
        (joinWith "," (headers mask) :: rows.map (csvRowLine mask)) := by
  have h0 : (rows.length == 0) = false := by
    simp [List.length_eq_zero, hne]
  have hfmt : (("csv" : String) == "xlsx") = false := by decide
  refine ⟨?_, ?_, List.filter_sublist _, mem_activeCols mask, mem_headers mask,
    ?_, ?_, rfl⟩
  · simp [exportData, h0, hfmt]
  · simp [exportData, h0]
  · intro row hrow
    rcases List.mem_map.1 hrow with ⟨r, _, rfl⟩
    simp [headers, List.map_map]
  · intro c hc row hrow kv hkv
    rcases List.mem_map.1 hrow with ⟨r, _, rfl⟩
    rcases List.mem_map.1 hkv with ⟨c', hc', rfl⟩
    intro he
    have h2 := (mem_activeCols mask c').1 hc'
    rw [colName_upper_injective c' c he, hc] at h2
    exact Bool.false_ne_true h2

/-- Concrete instantiation of the column-projection theorem. -/
theorem export_projects_masked_columns_witness :
    ([sampleRec1] : List Record) ≠ [] ∧
    ((exportData [sampleRec1] sampleMask "csv" false "T" =
      .csvFile ("gmaps_export_" ++ "T" ++ ".csv")
        (csvContent sampleMask [sampleRec1])) ∧
    (exportData [sampleRec1] sampleMask "xlsx" true "T" =
      .xlsxFile ("gmaps_export_" ++ "T" ++ ".xlsx") "Data"
        (xlsxRows sampleMask [sampleRec1])
        ((activeCols sampleMask).map (fun _ => 20))) ∧
    (activeCols sampleMask).Sublist canonicalCols ∧
    (∀ c, c ∈ activeCols sampleMask ↔ sampleMask c = true) ∧
    (∀ c, jsToUpper c.colName ∈ headers sampleMask ↔ sampleMask c = true) ∧
    (∀ row ∈ xlsxRows sampleMask [sampleRec1],
      row.map Prod.fst = headers sampleMask) ∧
    (∀ c, sampleMask c = false →
      ∀ row ∈ xlsxRows sampleMask [sampleRec1], ∀ kv ∈ row,
        kv.1 ≠ jsToUpper c.colName) ∧
    csvContent sampleMask [sampleRec1] =
      joinWith "\n"
        (joinWith "," (headers sampleMask) ::
          [sampleRec1].map (csvRowLine sampleMask))) :=
  ⟨by decide,
    export_projects_masked_columns [sampleRec1] sampleMask false "T"
      (by decide)⟩

/-- Escaping doubles exactly the quote characters. -/
theorem escList_count (l : List Char) :
    (escList l).count '\"' = 2 * l.count '\"' := by
  induction l with
  | nil => rfl
  | cons c cs ih =>
    by_cases hc : c = '\"'
    · subst hc
      simp [escList, List.count_cons, ih]
      omega
    · simp [escList, hc, List.count_cons, ih]

/-- Quote doubling is inverted by the standard unescaper. -/
theorem unescList_escList (l : List Char) : unescList (escList l) = l := by
  induction l with
  | nil => rfl
  | cons c cs ih =>
    by_cases hc : c = '\"'
    · subst hc
      simp [escList, unescList, ih]
    · rw [escList]
      simp only [hc, if_false]
      rw [unescList.eq_def]
      simp [hc, ih]

/-- The serialized field is the escaped display string enclosed in double
quotes, at the character level. -/
theorem csvField_data (v : JSVal) :
    (csvField v).data = '\"' :: (escList (displayVal v).data ++ ['\"']) := by
  show (("\"" ++ escapeQuotes (displayVal v)) ++ "\"").data = _
  rw [String.data_append, String.data_append]
  rfl

/-- **C7.** The CSV output is the header line followed by one comma-joined
line per record; every field of every record is emitted enclosed in double
quotes, with each embedded double-quote character doubled (and that
doubling is genuine escaping: it is inverted by the standard unescaper and
exactly doubles the number of quote characters). -/
theorem csv_fields_quoted_and_escaped (mask : Column → Bool)
    (rows : List Record) :
    (csvContent mask rows =
      joinWith "\n"
        (joinWith "," (headers mask) :: rows.map (csvRowLine mask))) ∧
    ((rows.map (csvRowLine mask)).length = rows.length) ∧
    (∀ r, csvRowLine mask r =
      joinWith "," ((activeCols mask).map (fun c => csvField (r.get c)))) ∧
    (∀ v, (csvField v).data = '\"' :: (escList (displayVal v).data ++ ['\"'])) ∧
    (∀ l, unescList (escList l) = l) ∧
    (∀ l, (escList l).count '\"' = 2 * l.count '\"') :=
  ⟨rfl, List.length_map _ _, fun _ => rfl, csvField_data, unescList_escList,
    escList_count⟩

/-- The quoted-field parser undoes the escaping produced by `escList`: after
the opening quote, reading the escaped content followed by the closing
quote and any continuation not starting with a quote returns the raw
content. -/
theorem parseQuotedAux_escList (cs : List Char) :
    ∀ (acc rest : List Char), (∀ r, rest ≠ '\"' :: r) →
    parseQuotedAux acc (escList cs ++ '\"' :: rest) = some (acc ++ cs, rest) := by
  induction cs with
  | nil =>
    intro acc rest hrest
    rcases rest with _ | ⟨c2, r2⟩
    · simp [escList, parseQuotedAux]
    · have hc2 : c2 ≠ '\"' := fun h => hrest r2 (by rw [h])
      simp [escList, parseQuotedAux, hc2]
  | cons c cs ih =>
    intro acc rest hrest
    by_cases hc : c = '\"'
    · subst hc
      have step := ih (acc ++ ['\"']) rest hrest
      simp [escList, parseQuotedAux, step]
    · have step := ih (acc ++ [c]) rest hrest
      simp only [escList, if_neg hc, List.cons_append]
      rw [parseQuotedAux.eq_def]
      simp [hc, step]

theorem takeWhile_append_stop (p : Char → Bool) :
    ∀ (l : List Char) (c : Char) (t : List Char),
    (∀ x ∈ l, p x = true) → p c = false →
    (l ++ c :: t).takeWhile p = l ∧ (l ++ c :: t).dropWhile p = c :: t := by
  intro l
  induction l with
  | nil =>
    intro c t _ hc
    simp [List.takeWhile, List.dropWhile, hc]
  | cons x xs ih =>
    intro c t hl hc
    have hx : p x = true := hl x (List.mem_cons_self x xs)
    have ihr := ih c t (fun y hy => hl y (List.mem_cons_of_mem x hy)) hc
    simp [List.takeWhile, List.dropWhile, hx, ihr.1, ihr.2]

theorem mk_data (s : String) : String.mk s.data = s := rfl

/-- Parsing one fully-quoted CSV record terminated by a newline returns its
raw fields and the input after the newline. -/
theorem parseRecordAux_encQ_nl :
    ∀ (raws : List String) (fuel : Nat) (tail : List Char), raws ≠ [] →
    raws.length ≤ fuel →
    parseRecordAux fuel (encQRecord raws ++ '\n' :: tail) =
      some (raws, tail) := by
  intro raws
  induction raws with
  | nil => intro fuel tail h _; exact absurd rfl h
  | cons r rs ih =>
    intro fuel tail _ hf
    rcases fuel with _ | f
    · simp at hf
    rcases rs with _ | ⟨r2, rs2⟩
    · have hq := parseQuotedAux_escList r.data [] ('\n' :: tail)
        (by intro r' h; simp at h)
      simp only [encQRecord, List.map, encJoin, encField, List.cons_append,
        List.append_assoc, List.singleton_append]
      rw [parseRecordAux.eq_def]
      simp [hq, mk_data]
    · have hq := parseQuotedAux_escList r.data []
        (',' :: (encQRecord (r2 :: rs2) ++ '\n' :: tail))
        (by intro r' h; simp at h)
      have hrec := ih f tail (by simp) (by simp at hf ⊢; omega)
      simp only [encQRecord, List.map, encJoin, encField, List.cons_append,
        List.append_assoc, List.singleton_append] at hq hrec ⊢
      rw [parseRecordAux.eq_def]
      simp [hq, hrec, mk_data]

/-- Parsing one fully-quoted CSV record at the end of the input returns its
raw fields and exhausts the input. -/
theorem parseRecordAux_encQ_last :
    ∀ (raws : List String) (fuel : Nat), raws ≠ [] → raws.length ≤ fuel →
    parseRecordAux fuel (encQRecord raws) = some (raws, []) := by
  intro raws
  induction raws with
  | nil => intro fuel h _; exact absurd rfl h
  | cons r rs ih =>
    intro fuel _ hf
    rcases fuel with _ | f
    · simp at hf
    rcases rs with _ | ⟨r2, rs2⟩
    · have hq := parseQuotedAux_escList r.data [] []
        (by intro r' h; simp at h)
      simp only [encQRecord, List.map, encJoin, encField, List.cons_append,
        List.append_assoc, List.singleton_append]
      rw [parseRecordAux.eq_def]
      simp [hq, mk_data]
    · have hq := parseQuotedAux_escList r.data []
        (',' :: encQRecord (r2 :: rs2))
        (by intro r' h; simp at h)
      have hrec := ih f (by simp) (by simp at hf ⊢; omega)
      simp only [encQRecord, List.map, encJoin, encField, List.cons_append,
        List.append_assoc, List.singleton_append] at hq hrec ⊢
      rw [parseRecordAux.eq_def]
      simp [hq, hrec, mk_data]

/-- Parsing one bare (unquoted) CSV record — the shape of the header line —
terminated by a newline returns its fields verbatim. -/
theorem parseRecordAux_plain :
    ∀ (raws : List String) (fuel : Nat) (tail : List Char), raws ≠ [] →
    raws.length ≤ fuel →
    (∀ x ∈ raws, ∀ ch ∈ x.data, ch ≠ ',' ∧ ch ≠ '\n' ∧ ch ≠ '\"') →
    parseRecordAux fuel (encPRecord raws ++ '\n' :: tail) =
      some (raws, tail) := by
  intro raws
  induction raws with
  | nil => intro fuel tail h _ _; exact absurd rfl h
  | cons r rs ih =>
    intro fuel tail _ hf hchars
    rcases fuel with _ | f
    · simp at hf
    have hrchars := hchars r (List.mem_cons_self r rs)
    have hall : ∀ x ∈ r.data, (!(x == ',') && !(x == '\n')) = true := by
      intro x hx
      have h3 := hrchars x hx
      simp [h3.1, h3.2.1]
    rcases rs with _ | ⟨r2, rs2⟩
    · have htw := takeWhile_append_stop (fun ch => !(ch == ',') && !(ch == '\n'))
        r.data '\n' tail hall (by decide)
      rcases hrd : r.data with _ | ⟨ch, cd⟩
      · have hr0 : String.mk ([] : List Char) = r := by rw [← hrd]
        simp only [encPRecord, List.map, encJoin]
        rw [hrd]
        rw [parseRecordAux.eq_def]
        simp [List.takeWhile, List.dropWhile, hr0]
      · have hch := hrchars ch (by rw [hrd]; exact List.mem_cons_self ch cd)
        have hmk : String.mk (ch :: cd) = r := by rw [← hrd]
        rw [hrd] at htw
        simp only [encPRecord, List.map, encJoin]
        rw [hrd]
        simp only [List.cons_append] at htw ⊢
        rw [parseRecordAux.eq_def]
        simp [hch.2.2, htw.1, htw.2, hmk]
    · have hrec := ih f tail (by simp) (by simp at hf ⊢; omega)
        (fun x hx => hchars x (List.mem_cons_of_mem r hx))
      have htw := takeWhile_append_stop (fun ch => !(ch == ',') && !(ch == '\n'))
        r.data ',' (encPRecord (r2 :: rs2) ++ '\n' :: tail) hall (by decide)
      simp only [encPRecord, List.map, encJoin] at htw
      rcases hrd : r.data with _ | ⟨ch, cd⟩
      · have hr0 : String.mk ([] : List Char) = r := by rw [← hrd]
        simp only [encPRecord, List.map, encJoin] at hrec ⊢
        rw [hrd]
        simp only [List.nil_append, List.append_assoc, List.cons_append]
        rw [parseRecordAux.eq_def]
        simp only [List.takeWhile, List.dropWhile]
        simp [hrec, hr0]
      · have hch := hrchars ch (by rw [hrd]; exact List.mem_cons_self ch cd)
        have hmk : String.mk (ch :: cd) = r := by rw [← hrd]
        rw [hrd] at htw
        simp only [encPRecord, List.map, encJoin] at hrec ⊢
        rw [hrd]
        simp only [List.cons_append, List.append_assoc] at htw ⊢
        rw [parseRecordAux.eq_def]
        simp [hch.2.2, htw.1, htw.2, hrec, hmk]

/-- A non-empty quoted record starts with a quote character. -/
theorem encQRecord_shape (raws : List String) (h : raws ≠ []) :
    ∃ t, encQRecord raws = '\"' :: t := by
  rcases raws with _ | ⟨r, rs⟩
  · exact absurd rfl h
  rcases rs with _ | ⟨r2, rs2⟩
  · exact ⟨_, rfl⟩
  · exact ⟨_, rfl⟩

theorem length_le_encQRecord :
    ∀ raws : List String, raws ≠ [] →
    raws.length ≤ (encQRecord raws).length := by
  intro raws
  induction raws with
  | nil => intro h; exact absurd rfl h
  | cons r rs ih =>
    intro _
    rcases rs with _ | ⟨r2, rs2⟩
    · simp [encQRecord, encJoin, encField]
    · have hih := ih (by simp)
      simp only [encQRecord, List.map, encJoin, encField, List.length_append,
        List.length_cons] at hih ⊢
      omega

theorem length_le_encPRecord :
    ∀ raws : List String, raws ≠ [] →
    raws.length ≤ (encPRecord raws).length + 1 := by
  intro raws
  induction raws with
  | nil => intro h; exact absurd rfl h
  | cons r rs ih =>
    intro _
    rcases rs with _ | ⟨r2, rs2⟩
    · simp [encPRecord, encJoin]
    · have hih := ih (by simp)
      simp only [encPRecord, List.map, encJoin, List.length_append,
        List.length_cons] at hih ⊢
      omega

theorem length_le_encQDoc :
    ∀ lines : List (List String), (∀ l ∈ lines, l ≠ []) →
    lines.length ≤ (encQDoc lines).length := by
  intro lines
  induction lines with
  | nil => intro _; simp [encQDoc, encJoin]
  | cons l ls ih =>
    intro hne
    have hl : 1 ≤ (encQRecord l).length := by
      have h1 := length_le_encQRecord l (hne l (List.mem_cons_self l ls))
      have h2 : 1 ≤ l.length := by
        rcases l with _ | _
        · exact absurd rfl (hne [] (List.mem_cons_self [] ls))
        · simp
      omega
    rcases ls with _ | ⟨l2, ls2⟩
    · simpa [encQDoc, encJoin] using hl
    · have hih := ih (fun x hx => hne x (List.mem_cons_of_mem l hx))
      simp only [encQDoc, List.map, encJoin, List.length_append,
        List.length_cons] at hih ⊢
      omega

/-- The document parser reads back a newline-joined sequence of fully-quoted
records. -/
theorem parseDocAux_encQDoc :
    ∀ (lines : List (List String)) (fuel : Nat),
    (∀ l ∈ lines, l ≠ []) → lines.length < fuel →
    parseDocAux fuel (encQDoc lines) = some lines := by
  intro lines
  induction lines with
  | nil =>
    intro fuel _ hf
    rcases fuel with _ | f
    · omega
    · simp [encQDoc, encJoin, parseDocAux]
  | cons l ls ih =>
    intro fuel hne hf
    rcases fuel with _ | f
    · omega
    have hlne : l ≠ [] := hne l (List.mem_cons_self l ls)
    rcases encQRecord_shape l hlne with ⟨t, ht⟩
    have hlen := length_le_encQRecord l hlne
    rcases ls with _ | ⟨l2, ls2⟩
    · rcases f with _ | f2
      · simp at hf
      have hrec := parseRecordAux_encQ_last l ((encQRecord l).length + 1) hlne
        (hlen.trans (Nat.le_succ _))
      simp only [encQDoc, List.map, encJoin]
      rw [ht]
      simp only [parseDocAux]
      rw [← ht, hrec]
    · have hih := ih f (fun x hx => hne x (List.mem_cons_of_mem l hx))
        (by simp at hf ⊢; omega)
      simp only [encQDoc, List.map, encJoin] at hih ⊢
      have hrec := parseRecordAux_encQ_nl l
        ((encQRecord l ++ '\n' ::
            encJoin '\n' (encQRecord l2 :: List.map encQRecord ls2)).length + 1)
        (encJoin '\n' (encQRecord l2 :: List.map encQRecord ls2)) hlne
        (by simp only [List.length_append, List.length_cons]; omega)
      rw [ht, List.cons_append]
      simp only [parseDocAux]
      rw [← List.cons_append, ← ht, hrec]
      simp [hih]

/-- `Array.prototype.join` with a one-character separator, viewed at the
character level. -/
theorem joinWith_data (sep : String) (c : Char) (hsep : sep.data = [c]) :
    ∀ l : List String, (joinWith sep l).data = encJoin c (l.map String.data) := by
  intro l
  induction l with
  | nil => rfl
  | cons x xs ih =>
    rcases xs with _ | ⟨y, ys⟩
    · rfl
    · show ((x ++ sep) ++ joinWith sep (y :: ys)).data = _
      rw [String.data_append, String.data_append, ih, hsep]
      simp [encJoin, List.map]

/-- A serialized data line is the quoted record over the displayed field
values. -/
theorem csvRowLine_data (mask : Column → Bool) (r : Record) :
    (csvRowLine mask r).data =
      encQRecord ((activeCols mask).map (fun c => displayVal (r.get c))) := by
  rw [csvRowLine, joinWith_data "," ',' rfl, encQRecord]
  simp only [List.map_map]
  have hcomp : (String.data ∘ fun c => csvField (r.get c)) =
      (encField ∘ fun c => displayVal (r.get c)) := by
    funext c
    exact csvField_data (r.get c)
  rw [hcomp]

/-- The whole CSV byte stream, viewed at the character level: the bare
header record, a newline, then the newline-joined quoted data records. -/
theorem csvContent_data (mask : Column → Bool) (rows : List Record)
    (h : rows ≠ []) :
    (csvContent mask rows).data =
      encPRecord (headers mask) ++ '\n' ::
        encQDoc (rows.map (fun r => (activeCols mask).map
          (fun c => displayVal (r.get c)))) := by
  rcases rows with _ | ⟨r0, rest⟩
  · exact absurd rfl h
  have hfun : (fun r => (csvRowLine mask r).data) =
      fun r => encQRecord ((activeCols mask).map
        (fun c => displayVal (r.get c))) := by
    funext r
    exact csvRowLine_data mask r
  rw [csvContent, joinWith_data "\n" '\n' rfl]
  simp only [List.map, List.map_map, Function.comp_def, encQDoc, hfun]
  rw [csvRowLine_data mask r0]
  simp only [encJoin]
  rw [joinWith_data "," ',' rfl]
  rfl

/-- One definitional unfolding step of the document parser on a non-empty
input. -/
theorem parseDocAux_cons (fuel : Nat) (c : Char) (cs : List Char) :
    parseDocAux (fuel + 1) (c :: cs) =
      match parseRecordAux ((c :: cs).length + 1) (c :: cs) with
      | some (fields, rest) =>
        match parseDocAux fuel rest with
        | some recs => some (fields :: recs)
        | none => none
      | none => none := rfl

/-- The exported header labels contain no separator and no quote
characters. -/
theorem headers_chars_ok (mask : Column → Bool) :
    ∀ x ∈ headers mask, ∀ ch ∈ x.data, ch ≠ ',' ∧ ch ≠ '\n' ∧ ch ≠ '\"' := by
  intro x hx
  rcases List.mem_map.1 hx with ⟨c, _, rfl⟩
  cases c <;> decide

/-- **C8.** Round-trip: for every non-empty record set and every column
mask with at least one enabled column, serializing to CSV and parsing back
with a standard CSV parser reconstructs the upper-cased header labels and,
for every record and enabled column, exactly the serialized (visible) field
value. -/
theorem csv_export_parse_roundtrip (rows : List Record)
    (mask : Column → Bool) (hrows : rows ≠ [])
    (hcols : activeCols mask ≠ []) :
    parseCSV (csvContent mask rows) =
      some (headers mask ::
        rows.map (fun r => (activeCols mask).map
          (fun c => displayVal (r.get c)))) := by
  have hhdr_ne : headers mask ≠ [] := by simp [headers, hcols]
  have hdl_ne : ∀ l ∈ rows.map (fun r => (activeCols mask).map
      (fun c => displayVal (r.get c))), l ≠ [] := by
    intro l hl
    rcases List.mem_map.1 hl with ⟨r, _, rfl⟩
    simp [hcols]
  have hlen_hdr := length_le_encPRecord (headers mask) hhdr_ne
  have hlen_dl := length_le_encQDoc _ hdl_ne
  have hdata := csvContent_data mask rows hrows
  rw [parseCSV, hdata]
  obtain ⟨c0, cs0, hcs⟩ :
      ∃ c0 cs0, encPRecord (headers mask) ++ '\n' ::
        encQDoc (rows.map (fun r => (activeCols mask).map
          (fun c => displayVal (r.get c)))) = c0 :: cs0 := by
    rcases hP : encPRecord (headers mask) with _ | ⟨a, b⟩
    · exact ⟨_, _, rfl⟩
    · exact ⟨_, _, rfl⟩
  have hhdr := parseRecordAux_plain (headers mask) ((c0 :: cs0).length + 1)
    (encQDoc (rows.map (fun r => (activeCols mask).map
      (fun c => displayVal (r.get c))))) hhdr_ne
    (by
      have hle : (encPRecord (headers mask)).length ≤ (c0 :: cs0).length := by
        rw [← hcs]
        simp only [List.length_append, List.length_cons]
        omega
      omega)
    (headers_chars_ok mask)
  rw [hcs] at hhdr
  have hdoc := parseDocAux_encQDoc
    (rows.map (fun r => (activeCols mask).map (fun c => displayVal (r.get c))))
    (c0 :: cs0).length hdl_ne
    (by
      have hlen : (c0 :: cs0).length = (encPRecord (headers mask)).length + 1 +
          (encQDoc (rows.map (fun r => (activeCols mask).map
            (fun c => displayVal (r.get c))))).length := by
        rw [← hcs]
        simp only [List.length_append, List.length_cons]
        omega
      omega)
  simp only [List.length_cons] at hdoc
  rw [hcs, parseDocAux_cons, hhdr]
  simp [hdoc]

/-- Concrete instantiation of the round-trip theorem: two records (one with
an embedded quote, a comma, and a zero rating) under a mask hiding two
columns. -/
theorem csv_export_parse_roundtrip_witness :
    ([sampleRec1, sampleRec3] : List Record) ≠ [] ∧
    activeCols sampleMask ≠ [] ∧
    parseCSV (csvContent sampleMask [sampleRec1, sampleRec3]) =
      some (headers sampleMask ::
        [sampleRec1, sampleRec3].map (fun r => (activeCols sampleMask).map
          (fun c => displayVal (r.get c)))) :=
  ⟨by decide, by decide,
    csv_export_parse_roundtrip [sampleRec1, sampleRec3] sampleMask
      (by decide) (by decide)⟩

end GMaps
